import Mathlib

/-!
Verification development for the sgope symbol-dependency-graph extractor.

The definitions below are a shallow embedding of the repository's code:
  * the graph extraction engine of `src/graph.go` (the variant with
    `Tests: true`, `Parent`/`Test` node fields and `underlyingTypes`, whose
    line numbers are cited throughout),
  * the CLI wrapper of `src/unnamed/part_002`,
  * the text-parsing visualization path of `src/unnamed/part_000` and
    `src/unnamed/part_001` (node classification, the in-browser
    focus/selection logic of `handleSelectionLogic` / `applyFocus`).

Go strings are modeled as Lean `String`; Go maps keyed by strings are
modeled at the level of their key/pair sets (Go map iteration order is
unspecified, and every property proved here is order-insensitive or about
set membership).  Machinery that no claim touches (source positions /
`Fset`, JSON marshaling) is not modeled.
-/

/-! ## String helpers

Structural re-implementations of the Go `strings` helpers used by the code
(`strings.HasPrefix`, `strings.HasSuffix`, `strings.Contains` with a
one-character needle, `strings.Split` with separator "."), written over
`List Char` so that they reduce by `decide`/`rfl` on concrete inputs. -/

/-- Boolean test that the second list is an initial segment of the first
(`strings.HasPrefix`). -/
def listStartsWith : List Char → List Char → Bool
  | _, [] => true
  | [], _ :: _ => false
  | c :: cs, d :: ds => c == d && listStartsWith cs ds

/-- Go `strings.HasPrefix s pre` / JS `s.startsWith(pre)`. -/
def strStartsWith (s pre : String) : Bool :=
  listStartsWith s.data pre.data

/-- Go `strings.HasSuffix s suf`. -/
def strEndsWith (s suf : String) : Bool :=
  listStartsWith s.data.reverse suf.data.reverse

/-- Go `strings.Contains s "."` (one-character needle, so substring
containment coincides with character containment). -/
def strContainsDot (s : String) : Bool :=
  s.data.contains '.'

/-- Go `strings.Split s "."` on the character list: split at every `'.'`
occurrence; `strings.Split` of an empty string yields `[""]`. -/
def splitDots : List Char → List (List Char)
  | [] => [[]]
  | c :: cs =>
    if c == '.' then [] :: splitDots cs
    else
      match splitDots cs with
      | [] => [[c]]
      | p :: ps => (c :: p) :: ps

/-- Go `token.IsExported`: the first character of the name is an upper-case
letter.  (Go consults full Unicode upper-case; Go identifiers relevant to
the claims are ASCII, for which `Char.isUpper` agrees.) -/
def isExported (name : String) : Bool :=
  match name.data with
  | [] => false
  | c :: _ => c.isUpper

/-! ## The graph extraction engine (`src/graph.go`)

String constants of `src/graph.go` lines 296-313. -/

def kindType : String := "type"
def kindFunc : String := "func"
def kindConst : String := "const"
def kindVar : String := "var"
def typeStruct : String := "struct"
def typeInterface : String := "interface"
def typeBasic : String := "basic"
def typeFunc : String := "func"
def typeName : String := "name"
def funcMethod : String := "method"
def funcBasic : String := "func"
def varBasic : String := "basic"
def varField : String := "field"

/-- Underlying structural shape of a named type, as discriminated by the Go
type switches on `Underlying()` (`*types.Struct`, `*types.Interface`,
`*types.Basic`, `*types.Signature`, default). -/
inductive Shape
  | structS
  | interfaceS
  | basicS
  | sigS
  | otherS
deriving DecidableEq, Repr

/-- A `go/types` type as far as the engine inspects it: the wrapper
constructors matched by `underlyingTypes` (`src/graph.go` lines 702-717),
named types (carrying the id of their `TypeName` object, which for a
package-level named type is also its printed form `named.String()` as both
are `<pkgPath>.<Name>`, and the shape of their underlying type), and any
other type with its printed form. -/
inductive Ty
  | pointer (elem : Ty)
  | map (key elem : Ty)
  | array (elem : Ty)
  | slice (elem : Ty)
  | chan (elem : Ty)
  | named (tid : String) (sh : Shape)
  | prim (printed : String)
deriving DecidableEq, Repr

/-- The `underlyingTypes` helper of `src/graph.go` lines 702-717: strip
pointer/map/array/slice/chan wrappers recursively (for a map, key types
followed by element types); any other type is returned as a singleton. -/
def underlyingTypes : Ty → List Ty
  | Ty.pointer e => underlyingTypes e
  | Ty.map k e => underlyingTypes k ++ underlyingTypes e
  | Ty.array e => underlyingTypes e
  | Ty.slice e => underlyingTypes e
  | Ty.chan e => underlyingTypes e
  | t => [t]

/-- Printed form `types.Type.String()` of a stripped type, consulted by the
struct-field loop of `analyzePackages` (line 488).  `underlyingTypes` never
returns a wrapper, so wrappers need no printed form here. -/
def tyStr : Ty → String
  | Ty.named tid _ => tid
  | Ty.prim s => s
  | _ => ""

/-- A method of a named or interface type: the printed form of its receiver
type (`recv.Type().String()`) and its name. -/
structure MethodM where
  recvPrinted : String
  name : String
deriving DecidableEq, Repr

/-- Type-level information attached to an object whose `Type()` is
inspected by the engine: the underlying shape, struct fields
(name and declared type), explicit interface methods, printed forms of
interface embedded types, the method set of the named type, the printed
form `named.String()`, and whether `Type()` is a `*types.Named` at all
(false for type aliases). -/
structure TypeInfo where
  shape : Shape
  fields : List (String × Ty)
  ifaceMethods : List MethodM
  embeddeds : List String
  methods : List MethodM
  namedStr : String
  isNamed : Bool
deriving DecidableEq, Repr

/-- A resolved package-scope object, as discriminated by the type switch of
`objNodes` (`src/graph.go` lines 518-675): functions (with the printed
receiver type when they are methods), type names, constants and variables.
`pkgPath` is `obj.Pkg().Path()` (`none` models a nil `Pkg()`).  For
constants and variables the optional `TypeInfo` models their `Type()` when
it is a named type (used only by the structural edge pass). -/
inductive Obj
  | funcO (pkgPath : Option String) (name : String) (recv : Option String)
  | typeNameO (pkgPath : Option String) (name : String) (info : TypeInfo)
  | constO (pkgPath : Option String) (name : String) (tyInfo : Option TypeInfo)
  | varO (pkgPath : Option String) (name : String) (tyInfo : Option TypeInfo)
deriving DecidableEq, Repr

/-- The `Node` struct of `src/graph.go` lines 369-380.  The JSON field
`type` is spelled `Typ` (`Type` is reserved in Lean).  `Position` metadata
(`Fset` bookkeeping) is not modeled; no claim concerns it. -/
structure Node where
  Kind : String
  Typ : String
  Pkg : String
  Id : String
  LocalName : String
  Parent : String
  Test : Bool
deriving DecidableEq, Repr

/-- Field-order helper for building `Node`s. -/
def mkNode (kind ty pkg idStr localName parent : String) (test : Bool) : Node :=
  ⟨kind, ty, pkg, idStr, localName, parent, test⟩

/-- The `Link` struct of `src/graph.go` lines 382-385 (`from`/`to` in
JSON); `from` is a Lean keyword, hence `From`/`To` (the Go field names). -/
structure Link where
  From : String
  To : String
deriving DecidableEq, Repr

/-- Go `types.Id(pkg, name)`, the implementation behind the `t.Id()` calls
in the `*types.Const` and `*types.Var` cases of `objNodes` (lines 657 and
669): an exported name is returned bare; an unexported name is qualified
with the package path, or with `"_"` when the package is nil or its path is
empty. -/
def objectId (pkgPath : Option String) (name : String) : String :=
  if isExported name then name
  else
    (match pkgPath with
     | some p => if p = "" then "_" else p
     | none => "_") ++ "." ++ name

/-- The `id` function of `src/graph.go` lines 680-700.  `recv` is
`some <printed receiver type>` exactly when the object is a `*types.Func`
whose signature has a receiver; otherwise the package-path qualification
applies (bare name when the package is nil or its path is empty). -/
def idOf (pkgPath : Option String) (name : String) (recv : Option String) : String :=
  match recv with
  | some r => "(" ++ r ++ ")." ++ name
  | none =>
    match pkgPath with
    | some p => if p == "" then name else p ++ "." ++ name
    | none => name

/-- The `objNodes` function of `src/graph.go` lines 513-678.  `isTest`
models the file-name/package-name test detection of lines 514-517 (an input
here, since file names are not modeled).  Each case mirrors the source: one
node per function; for a type name one node for the type plus field nodes
(struct), explicit-method nodes (interface) and method-set nodes (named
types, with `Parent` the printed named type); one node per const/var, whose
`Id` is `t.Id()` -- `objectId` -- not `idOf`. -/
def objNodes (isTest : Bool) : Obj → List Node
  | Obj.funcO pk name recv =>
      [mkNode kindFunc funcBasic (pk.getD "") (idOf pk name recv) name "" isTest]
  | Obj.typeNameO pk name info =>
      let tid := idOf pk name none
      let base : List Node :=
        match info.shape with
        | Shape.structS =>
            mkNode kindType typeStruct (pk.getD "") tid name "" isTest ::
              info.fields.map (fun f =>
                mkNode kindVar varField (pk.getD "") ("(" ++ tid ++ ")." ++ f.1)
                  (name ++ "." ++ f.1) tid isTest)
        | Shape.interfaceS =>
            mkNode kindType typeInterface (pk.getD "") tid name "" isTest ::
              info.ifaceMethods.map (fun m =>
                mkNode kindFunc funcMethod (pk.getD "")
                  (idOf pk m.name (some m.recvPrinted)) (name ++ "." ++ m.name) tid isTest)
        | Shape.basicS => [mkNode kindType typeBasic (pk.getD "") tid name "" isTest]
        | Shape.sigS => [mkNode kindType typeFunc (pk.getD "") tid name "" isTest]
        | Shape.otherS => [mkNode kindType typeName (pk.getD "") tid name "" isTest]
      base ++
        (if info.isNamed then
          info.methods.map (fun m =>
            mkNode kindFunc funcMethod (pk.getD "")
              (idOf pk m.name (some m.recvPrinted)) (name ++ "." ++ m.name)
              info.namedStr isTest)
         else [])
  | Obj.constO pk name _ =>
      [mkNode kindConst "" (pk.getD "") (objectId pk name) name "" isTest]
  | Obj.varO pk name _ =>
      [mkNode kindVar varBasic (pk.getD "") (objectId pk name) name "" isTest]

/-- The `linkSet` type of `src/graph.go` line 387, `map[string]map[string]bool`,
modeled as its set of `(from, to)` pairs that map to `true` (kept in first
insertion order; all claims about it are set-level). -/
abbrev linkSet := List (String × String)

/-- The `Insert` method of `linkSet` (`src/graph.go` lines 389-396): record
the pair; a pair already present is left alone (`m[to] = true` is
idempotent). -/
def linkSet.Insert (ls : linkSet) (f t : String) : linkSet :=
  if (f, t) ∈ ls then ls else ls ++ [(f, t)]

/-- A sequence of `Insert` calls, one per pair in the list. -/
def insertAll (ls : linkSet) (ps : List (String × String)) : linkSet :=
  ps.foldl (fun a p => linkSet.Insert a p.1 p.2) ls

/-- One step of the member-access (`*ast.SelectorExpr`) loop of
`analyzePackages` lines 440-450: if the stripped type is a named type whose
underlying shape is a struct and that named type has a tracked node, insert
an edge from the enclosing node to `"(<named id>).<member name>"`. -/
def selStep (ns : List String) (parentId memberName : String) (acc : linkSet) (t : Ty) : linkSet :=
  match t with
  | Ty.named tid sh =>
    if sh = Shape.structS ∧ tid ∈ ns then
      linkSet.Insert acc parentId ("(" ++ tid ++ ")." ++ memberName)
    else acc
  | _ => acc

/-- The whole member-access branch of `analyzePackages` lines 437-452:
iterate `selStep` over `underlyingTypes` of the receiver expression's
static type.  `ns` is the key set of `graph.Nodes`. -/
def selectorLinks (ns : List String) (ls : linkSet) (parentId : String) (xTy : Ty)
    (memberName : String) : linkSet :=
  (underlyingTypes xTy).foldl (selStep ns parentId memberName) ls

/-- The body of the structural pass of `analyzePackages` lines 467-496 for
one node whose object's `Type()` is inspected: method-ownership edges, then
by underlying shape either interface explicit-method and (tracked) embedded
edges, or struct field-type and field-ownership edges. -/
def structLinksCore (ns : List String) (ls : linkSet) (nodeId : String) (info : TypeInfo) : linkSet :=
  if info.isNamed then
    let ls1 := info.methods.foldl
      (fun a m => linkSet.Insert a (idOf none m.name (some m.recvPrinted)) nodeId) ls
    match info.shape with
    | Shape.interfaceS =>
        let ls2 := info.ifaceMethods.foldl
          (fun a m => linkSet.Insert a (idOf none m.name (some m.recvPrinted)) nodeId) ls1
        info.embeddeds.foldl
          (fun a e => if e ∈ ns then linkSet.Insert a nodeId e else a) ls2
    | Shape.structS =>
        info.fields.foldl
          (fun a f =>
            let a2 := (underlyingTypes f.2).foldl
              (fun b t =>
                if tyStr t ∈ ns then
                  linkSet.Insert b ("(" ++ nodeId ++ ")." ++ f.1) (tyStr t)
                else b) a
            linkSet.Insert a2 ("(" ++ nodeId ++ ")." ++ f.1) nodeId) ls1
    | _ => ls1
  else ls

/-- Structural-pass contribution of one top-level object (the pass iterates
`graph.Nodes`; a function node's object has a signature type, skipped by the
`*types.Named` assertion; const/var objects contribute when their type is
named.  Contributions of struct-field child nodes whose declared type is
itself named follow the same `structLinksCore` shape and are not separately
modeled; no claim depends on them). -/
def structLinks (ns : List String) (ls : linkSet) : Obj → linkSet
  | Obj.typeNameO pk name info => structLinksCore ns ls (idOf pk name none) info
  | Obj.constO pk name tyInfo =>
      match tyInfo with
      | some info => structLinksCore ns ls (objectId pk name) info
      | none => ls
  | Obj.varO pk name tyInfo =>
      match tyInfo with
      | some info => structLinksCore ns ls (objectId pk name) info
      | none => ls
  | Obj.funcO _ _ _ => ls

/-- A syntactic reference met by the `ast.Inspect` walk of `analyzePackages`
lines 431-462, already paired with the id of its enclosing declared node
(`findContainingNode`; sub-expressions with no enclosing node contribute
nothing and are not modeled as events): either an identifier use resolving
to the object with node-key `refId`, or a member access with the receiver's
static type and the used member's name. -/
inductive RefEvent
  | identRef (parentId refId : String)
  | selRef (parentId : String) (xTy : Ty) (memberName : String)
deriving DecidableEq, Repr

/-- Processing of one reference event (lines 437-460): identifier uses
insert an edge only when the referenced id is a tracked node; member
accesses go through `selectorLinks`. -/
def applyEvent (ns : List String) (ls : linkSet) : RefEvent → linkSet
  | RefEvent.identRef p r => if r ∈ ns then linkSet.Insert ls p r else ls
  | RefEvent.selRef p x m => selectorLinks ns ls p x m

/-- One loaded package: its import path, its package-scope objects (each
with the test-ness of its declaring file) and the reference events of its
syntax trees. -/
structure PkgM where
  pkgPath : String
  objs : List (Bool × Obj)
  events : List RefEvent
deriving DecidableEq, Repr

/-- Node collection of `analyzePackages` lines 411-424: packages whose path
ends in `".test"` are skipped; all other packages contribute `objNodes` of
every scope object.  (`graph.Nodes` is a map keyed by `node.Id`; it is
modeled as the list of stored nodes, whose `Id` image is the key set.) -/
def collectNodes (pkgs : List PkgM) : List Node :=
  (pkgs.filter (fun p => !(strEndsWith p.pkgPath ".test"))).foldl
    (fun acc p => acc ++ p.objs.foldl (fun a ob => a ++ objNodes ob.1 ob.2) []) []

/-- The final assembly loop of `analyzePackages` lines 498-508: keep exactly
the candidate pairs both of whose endpoints are tracked node ids, as `Link`s. -/
def assembleLinks (ns : List String) (ls : linkSet) : List Link :=
  (ls.filter (fun p => decide (p.1 ∈ ns) && decide (p.2 ∈ ns))).map
    (fun p => Link.mk p.1 p.2)

/-- The `Graph` struct of `src/graph.go` lines 315-318. -/
structure Graph where
  Nodes : List Node
  Links : List Link
deriving DecidableEq, Repr

/-- The candidate edge set accumulated by `analyzePackages` before assembly
(lines 426-496): the reference-resolver pass over every package (including
`.test`-suffixed ones -- only node collection skips them), then the
structural pass over the collected objects. -/
def candidateLinks (pkgs : List PkgM) : linkSet :=
  let nodeIds := (collectNodes pkgs).map Node.Id
  let ls1 := pkgs.foldl (fun a p => p.events.foldl (applyEvent nodeIds) a) ([] : linkSet)
  (pkgs.filter (fun p => !(strEndsWith p.pkgPath ".test"))).foldl
    (fun a p => p.objs.foldl (fun a2 ob => structLinks nodeIds a2 ob.2) a) ls1

/-- The loaded-packages part of `analyzePackages` (lines 408-510): collect
nodes, accumulate candidate links, then assemble. -/
def buildGraph (pkgs : List PkgM) : Graph :=
  ⟨collectNodes pkgs,
   assembleLinks ((collectNodes pkgs).map Node.Id) (candidateLinks pkgs)⟩

/-- The `analyzePackages` function of `src/graph.go` lines 398-511 at the
error-handling level: a `packages.Load` failure is returned as the error
(lines 403-406: `if err != nil { return nil, err }`); otherwise the graph is
built from the loaded packages. -/
def analyzePackages (load : Except String (List PkgM)) : Except String Graph :=
  match load with
  | Except.error e => Except.error e
  | Except.ok pkgs => Except.ok (buildGraph pkgs)

/-- Outcome of a run of `main` (`src/unnamed/part_002`): either a fatal
abort carrying the single logged message (`log.Fatal(err)`, which writes
one report and exits before any output is produced), or the emission of the
assembled graph (JSON printing / serving). -/
inductive RunOutcome
  | fatal (msg : String)
  | emit (g : Graph)
deriving DecidableEq, Repr

/-- The analysis path of `main` in `src/unnamed/part_002` lines 40-53:
`analyzePackages` is called; on error the run dies via `log.Fatal` with
that error and nothing is emitted; on success the graph is emitted. -/
def mainRun (load : Except String (List PkgM)) : RunOutcome :=
  match analyzePackages load with
  | Except.error e => RunOutcome.fatal e
  | Except.ok g => RunOutcome.emit g

/-- The graph artifact (if any) carried by a run outcome: a fatal abort
emits nothing, not even a partial graph. -/
def emittedGraph : RunOutcome → Option Graph
  | RunOutcome.fatal _ => none
  | RunOutcome.emit g => some g

/-! ## The text-parsing visualization path (`src/unnamed/part_000`, `part_001`) -/

/-- The viewer-side `Node` struct of `src/unnamed/part_001` lines 12-16
(JSON fields `id`, `type`, `group`). -/
structure VizNode where
  ID : String
  Typ : String
  Group : String
deriving DecidableEq, Repr

/-- The viewer-side `Link` struct of `src/unnamed/part_001` lines 18-21
(JSON fields `source`, `target`).  After d3 binds the data, `source` and
`target` may be objects, which is why the JS reads `l.source.id || l.source`;
at the data level both are the node-id strings modeled here. -/
structure VizLink where
  Source : String
  Target : String
deriving DecidableEq, Repr

/-- The `classifyNode` function of `src/unnamed/part_000` lines 72-80. -/
def classifyNode (name typ : String) : String :=
  if strStartsWith name "Test" then "test"
  else if strContainsDot name then "method"
  else typ

/-- The owning type a method node is attached to by `parseDependencies`
(`src/unnamed/part_000` lines 35-47): the text before the dot when the id
splits on "." into exactly two parts; no parent otherwise.  This is the
only parent notion materialized in the text-parsing path (its nodes carry
no parent field). -/
def methodParent (idStr : String) : Option String :=
  match splitDots idStr.data with
  | [a, _] => some (String.mk a)
  | _ => none

/-- One step of the method-gathering loop in `handleSelectionLogic`
(`src/unnamed/part_000` lines 255-259): add the node's id to the selection
unit when its `type` is `"method"` and its id starts with the selected id
followed by a dot (`newSelections` is a JS `Set`, hence the duplicate
guard). -/
def unitStep (tid : String) (acc : List String) (n : VizNode) : List String :=
  if n.Typ = "method" ∧ strStartsWith n.ID (tid ++ ".") = true ∧ n.ID ∉ acc then
    acc ++ [n.ID]
  else acc

/-- The selection-unit computation of `handleSelectionLogic`
(`src/unnamed/part_000` lines 248-262): find the clicked node; when its
`type` is `"type"`, the unit is the clicked id plus every method node whose
id extends it with a dot; otherwise the unit is the clicked id alone. -/
def selectionUnit (nodes : List VizNode) (tid : String) : List String :=
  match nodes.find? (fun n => n.ID == tid) with
  | some tn =>
    if tn.Typ = "type" then nodes.foldl (unitStep tid) [tid]
    else [tid]
  | none => [tid]

/-- Membership toggle of one id in the selection set (the body of the
`newSelections.forEach` in the shift branch, lines 264-268). -/
def toggleOne (sel : String → Bool) (x : String) : String → Bool :=
  fun y => if y = x then !(sel y) else sel y

/-- Toggling every id of the unit against the selection set. -/
def toggleAll (sel : String → Bool) (unit : List String) : String → Bool :=
  unit.foldl toggleOne sel

/-- The selection-set update of `handleSelectionLogic`
(`src/unnamed/part_000` lines 248-276): with the shift modifier the
computed unit is toggled member-wise against the current selection; without
it the selection is replaced by the unit.  (The subsequent
`resetFocus`/`applyFocus`/`updateURL` calls do not change the selection
set: `resetFocus` clears a set that is already empty when invoked here.)
The JS `Set` of selected ids is modeled as its characteristic function. -/
def handleSelection (nodes : List VizNode) (sel : String → Bool) (tid : String)
    (isShift : Bool) : String → Bool :=
  let unit := selectionUnit nodes tid
  if isShift then toggleAll sel unit
  else fun y => decide (y ∈ unit)

/-- The outbound-external edges of `applyFocus` (`src/unnamed/part_000`
line 280): source selected, target not. -/
def extOut (sel : String → Bool) (links : List VizLink) : List VizLink :=
  links.filter (fun l => sel l.Source && !(sel l.Target))

/-- The inbound-external edges of `applyFocus` (line 281): target selected,
source not. -/
def extIn (sel : String → Bool) (links : List VizLink) : List VizLink :=
  links.filter (fun l => !(sel l.Source) && sel l.Target)

/-- The internal edges of `applyFocus` (lines 296-297): both endpoints
selected. -/
def internalLinks (sel : String → Bool) (links : List VizLink) : List VizLink :=
  links.filter (fun l => sel l.Source && sel l.Target)

/-! ## Lemmas about `linkSet` -/

/-- Inserting a pair that is already present leaves the set unchanged. -/
theorem Insert_eq_of_mem (ls : linkSet) (f t : String) (h : (f, t) ∈ ls) :
    linkSet.Insert ls f t = ls := by
  unfold linkSet.Insert
  exact if_pos h

/-- Membership after an `Insert`. -/
theorem mem_Insert_iff (ls : linkSet) (f t : String) (p : String × String) :
    p ∈ linkSet.Insert ls f t ↔ p = (f, t) ∨ p ∈ ls := by
  unfold linkSet.Insert
  split_ifs with h
  · constructor
    · exact Or.inr
    · rintro (rfl | hp)
      · exact h
      · exact hp
  · simp [List.mem_append, or_comm]

/-- The inserted pair is a member. -/
theorem mem_Insert_self (ls : linkSet) (f t : String) : (f, t) ∈ linkSet.Insert ls f t :=
  (mem_Insert_iff ls f t (f, t)).2 (Or.inl rfl)

/-- `Insert` preserves membership. -/
theorem mem_Insert_of_mem (ls : linkSet) (f t : String) (p : String × String)
    (h : p ∈ ls) : p ∈ linkSet.Insert ls f t :=
  (mem_Insert_iff ls f t p).2 (Or.inr h)

/-- `Insert` preserves the absence of duplicate pairs. -/
theorem Insert_nodup (ls : linkSet) (f t : String) (h : ls.Nodup) :
    (linkSet.Insert ls f t).Nodup := by
  unfold linkSet.Insert
  split_ifs with hm
  · exact h
  · exact h.append (List.nodup_singleton _)
      (by intro a ha hb; simp at hb; subst hb; exact hm ha)

/-- Membership after a sequence of inserts is membership in the initial set
or among the inserted pairs. -/
theorem mem_insertAll (ps : List (String × String)) (ls : linkSet) (p : String × String) :
    p ∈ insertAll ls ps ↔ p ∈ ls ∨ p ∈ ps := by
  induction ps generalizing ls with
  | nil => simp [insertAll]
  | cons q qs ih =>
    have hstep : insertAll ls (q :: qs) = insertAll (linkSet.Insert ls q.1 q.2) qs := rfl
    rw [hstep, ih, mem_Insert_iff]
    simp [List.mem_cons]
    tauto

/-- A sequence of inserts preserves the absence of duplicate pairs. -/
theorem insertAll_nodup (ps : List (String × String)) (ls : linkSet) (h : ls.Nodup) :
    (insertAll ls ps).Nodup := by
  induction ps generalizing ls with
  | nil => exact h
  | cons q qs ih => exact ih _ (Insert_nodup _ _ _ h)

/-- C4: edge accumulation has set semantics.  Re-inserting a pair is the
identity; a duplicate-free link set stays duplicate-free under any sequence
of inserts (so each pair yields at most one final edge); and permuting the
insertion sequence leaves the resulting set of pairs unchanged. -/
theorem linkSet_set_semantics (ls : linkSet) (f t : String)
    (ps1 ps2 : List (String × String)) :
    linkSet.Insert (linkSet.Insert ls f t) f t = linkSet.Insert ls f t ∧
    (ls.Nodup → (insertAll ls ps1).Nodup) ∧
    (ps1.Perm ps2 → ∀ p, p ∈ insertAll ls ps1 ↔ p ∈ insertAll ls ps2) := by
  refine ⟨Insert_eq_of_mem _ _ _ (mem_Insert_self ls f t),
    fun h => insertAll_nodup ps1 ls h, fun hperm p => ?_⟩
  rw [mem_insertAll, mem_insertAll]
  exact or_congr Iff.rfl hperm.mem_iff

/-- Witness for C4 at concrete inputs. -/
theorem linkSet_set_semantics_witness :
    (insertAll [("x", "y")] [("a", "b"), ("a", "b")]).Nodup ∧
    (("a", "b") ∈ insertAll [("x", "y")] [("a", "b"), ("c", "d")] ↔
      ("a", "b") ∈ insertAll [("x", "y")] [("c", "d"), ("a", "b")]) :=
  ⟨(linkSet_set_semantics [("x", "y")] "a" "b" [("a", "b"), ("a", "b")]
      [("a", "b"), ("a", "b")]).2.1 (by decide),
   (linkSet_set_semantics [("x", "y")] "a" "b" [("a", "b"), ("c", "d")]
      [("c", "d"), ("a", "b")]).2.2 (List.Perm.swap ("c", "d") ("a", "b") []) ("a", "b")⟩

/-! ## Lemmas about assembly -/

/-- Membership in the assembled link list. -/
theorem mem_assembleLinks (ns : List String) (ls : linkSet) (l : Link) :
    l ∈ assembleLinks ns ls ↔ (l.From, l.To) ∈ ls ∧ l.From ∈ ns ∧ l.To ∈ ns := by
  unfold assembleLinks
  simp only [List.mem_map, List.mem_filter, Bool.and_eq_true, decide_eq_true_eq]
  constructor
  · rintro ⟨p, ⟨hp, h1, h2⟩, rfl⟩
    exact ⟨hp, h1, h2⟩
  · rintro ⟨hp, h1, h2⟩
    exact ⟨(l.From, l.To), ⟨hp, h1, h2⟩, rfl⟩

/-- C1: in every emitted graph, each final link's `from` and `to` are keys
of the emitted node set, and a candidate pair with an untracked endpoint is
dropped by assembly (no failure is possible: assembly is a total
function). -/
theorem analyzePackages_no_dangling_edges (pkgs : List PkgM) (l : Link)
    (ns : List String) (ls : linkSet) (p : String × String) :
    (l ∈ (buildGraph pkgs).Links →
      l.From ∈ (buildGraph pkgs).Nodes.map Node.Id ∧
      l.To ∈ (buildGraph pkgs).Nodes.map Node.Id) ∧
    (p ∈ ls → p.1 ∉ ns ∨ p.2 ∉ ns → Link.mk p.1 p.2 ∉ assembleLinks ns ls) := by
  constructor
  · intro hl
    have h := (mem_assembleLinks ((collectNodes pkgs).map Node.Id)
      (candidateLinks pkgs) l).1 hl
    exact ⟨h.2.1, h.2.2⟩
  · intro _ hne hmem
    have h := (mem_assembleLinks ns ls (Link.mk p.1 p.2)).1 hmem
    rcases hne with hbad | hbad
    · exact hbad h.2.1
    · exact hbad h.2.2

/-- Witness for C1: a two-variable package whose one reference edge
survives assembly, and a dangling candidate that is dropped. -/
theorem analyzePackages_no_dangling_edges_witness :
    (Link.mk "p.x" "p.y").From ∈
      (buildGraph [⟨"p", [(false, Obj.varO (some "p") "x" none),
        (false, Obj.varO (some "p") "y" none)],
        [RefEvent.identRef "p.x" "p.y"]⟩]).Nodes.map Node.Id ∧
    (Link.mk "p.x" "p.y").To ∈
      (buildGraph [⟨"p", [(false, Obj.varO (some "p") "x" none),
        (false, Obj.varO (some "p") "y" none)],
        [RefEvent.identRef "p.x" "p.y"]⟩]).Nodes.map Node.Id ∧
    Link.mk "a" "b" ∉ assembleLinks ["a"] [("a", "b")] :=
  ⟨((analyzePackages_no_dangling_edges
      [⟨"p", [(false, Obj.varO (some "p") "x" none),
        (false, Obj.varO (some "p") "y" none)],
        [RefEvent.identRef "p.x" "p.y"]⟩]
      (Link.mk "p.x" "p.y") ["a"] [("a", "b")] ("a", "b")).1 (by decide)).1,
   ((analyzePackages_no_dangling_edges
      [⟨"p", [(false, Obj.varO (some "p") "x" none),
        (false, Obj.varO (some "p") "y" none)],
        [RefEvent.identRef "p.x" "p.y"]⟩]
      (Link.mk "p.x" "p.y") ["a"] [("a", "b")] ("a", "b")).1 (by decide)).2,
   (analyzePackages_no_dangling_edges [] (Link.mk "a" "b") ["a"]
      [("a", "b")] ("a", "b")).2 (by decide) (Or.inr (by decide))⟩

/-! ## Lemmas about the member-access branch -/

/-- One selector step preserves membership. -/
theorem selStep_mono (ns : List String) (pid mn : String) (acc : linkSet) (t : Ty)
    (p : String × String) (h : p ∈ acc) : p ∈ selStep ns pid mn acc t := by
  cases t with
  | named tid sh =>
    simp only [selStep]
    split_ifs with hc
    · exact mem_Insert_of_mem _ _ _ _ h
    · exact h
  | pointer e => exact h
  | map k e => exact h
  | array e => exact h
  | slice e => exact h
  | chan e => exact h
  | prim s => exact h

/-- The selector fold preserves membership. -/
theorem foldl_selStep_mono (ns : List String) (pid mn : String) (ts : List Ty)
    (acc : linkSet) (p : String × String) (h : p ∈ acc) :
    p ∈ ts.foldl (selStep ns pid mn) acc := by
  induction ts generalizing acc with
  | nil => exact h
  | cons t ts ih => exact ih _ (selStep_mono _ _ _ _ _ _ h)

/-- If some stripped type is a tracked named struct type, the selector fold
contains the member edge. -/
theorem mem_foldl_selStep (ns : List String) (pid mn tid : String) (ts : List Ty)
    (acc : linkSet) (hts : Ty.named tid Shape.structS ∈ ts) (hns : tid ∈ ns) :
    (pid, "(" ++ tid ++ ")." ++ mn) ∈ ts.foldl (selStep ns pid mn) acc := by
  induction ts generalizing acc with
  | nil => cases hts
  | cons t ts ih =>
    rw [List.foldl_cons]
    rcases List.mem_cons.mp hts with heq | hmem
    · have hin : (pid, "(" ++ tid ++ ")." ++ mn) ∈ selStep ns pid mn acc t := by
        rw [← heq]
        simp only [selStep]
        split_ifs with hc
        · exact mem_Insert_self _ _ _
        · simp at hc
          exact absurd hns hc
      exact foldl_selStep_mono _ _ _ ts _ _ hin
    · exact ih _ hmem

/-- C3: for a member access `x.Name`, if recursively stripping
pointer/slice/array/map/channel wrappers from the static type of `x` yields
a named type whose underlying shape is a struct and whose id is a tracked
node, the engine inserts an edge from the enclosing declared node to
`"(<named id>).<member name>"`. -/
theorem selector_member_edge (ns : List String) (ls : linkSet)
    (parentId memberName tid : String) (xTy : Ty)
    (h1 : Ty.named tid Shape.structS ∈ underlyingTypes xTy) (h2 : tid ∈ ns) :
    (parentId, "(" ++ tid ++ ")." ++ memberName) ∈
      selectorLinks ns ls parentId xTy memberName :=
  mem_foldl_selStep ns parentId memberName tid (underlyingTypes xTy) ls h1 h2

/-- Witness for C3: a pointer-to-struct receiver type. -/
theorem selector_member_edge_witness :
    ("p.f", "(" ++ "p.T" ++ ")." ++ "Fld") ∈
      selectorLinks ["p.T"] [] "p.f" (Ty.pointer (Ty.named "p.T" Shape.structS)) "Fld" :=
  selector_member_edge ["p.T"] [] "p.f" "Fld" "p.T"
    (Ty.pointer (Ty.named "p.T" Shape.structS)) (by decide) (by decide)

/-! ## Error handling (C5) -/

/-- C5: when loading or parsing the program fails, `analyzePackages` returns
the error unchanged (no graph is built), `main` aborts fatally with that one
error report, and no graph artifact -- not even a partial one -- is
emitted. -/
theorem load_failure_fatal (e : String) :
    analyzePackages (Except.error e) = Except.error e ∧
    mainRun (Except.error e) = RunOutcome.fatal e ∧
    emittedGraph (mainRun (Except.error e)) = none :=
  ⟨rfl, rfl, rfl⟩

/-! ## Registry ids of const/var symbols (C2) -/

/-- Counterexample for C2: the registry stores const/var nodes under
`t.Id()`, so the exported variable `Foo` of package `"p"` gets node id
`"Foo"`, not `"p.Foo"` as the claim states. -/
theorem constVar_id_counterexample :
    (objNodes false (Obj.varO (some "p") "Foo" none)).map Node.Id = ["Foo"] ∧
    (objNodes false (Obj.constO (some "p") "Foo" none)).map Node.Id = ["Foo"] ∧
    decide (("Foo" : String) = "p.Foo") = false := by
  decide

/-- C2 amended: each const/var symbol's single node carries id
`types.Object.Id()`: the bare name when the name is exported; otherwise
`<packagePath>.<name>` when a nonempty package path is known, and
`"_.<name>"` when the package is unknown. -/
theorem constVar_id_scheme (pk : Option String) (name p : String) (isTest : Bool)
    (ti tc : Option TypeInfo) :
    (objNodes isTest (Obj.varO pk name ti)).map Node.Id = [objectId pk name] ∧
    (objNodes isTest (Obj.constO pk name tc)).map Node.Id = [objectId pk name] ∧
    (isExported name = true → objectId pk name = name) ∧
    (isExported name = false → pk = some p → p ≠ "" →
      objectId pk name = p ++ "." ++ name) ∧
    (isExported name = false → pk = none → objectId pk name = "_" ++ "." ++ name) := by
  refine ⟨by simp [objNodes, mkNode], by simp [objNodes, mkNode],
    fun h => by simp [objectId, h], fun h hpk hne => ?_, fun h hpk => ?_⟩
  · subst hpk
    simp [objectId, h, hne]
  · subst hpk
    simp [objectId, h]

/-- Witness for C2 (amended) at concrete inputs. -/
theorem constVar_id_scheme_witness :
    objectId (some "p") "Foo" = "Foo" ∧
    objectId (some "p") "bar" = "p" ++ "." ++ "bar" ∧
    objectId none "bar" = "_" ++ "." ++ "bar" :=
  ⟨(constVar_id_scheme (some "p") "Foo" "p" false none none).2.2.1 (by decide),
   (constVar_id_scheme (some "p") "bar" "p" false none none).2.2.2.1 (by decide) rfl
     (by decide),
   (constVar_id_scheme none "bar" "p" false none none).2.2.2.2 (by decide) rfl⟩

/-! ## Const/var node subtypes (C9) -/

/-- C9: a package-level variable symbol yields exactly one node, whose
subtype is the plain-variable subtype `varBasic` (the code's name for the
spec's `plain`) and not `varField`; a const symbol also yields exactly one
node; and a node with subtype `varField` arises only as a struct member
node of a struct-shaped type symbol. -/
theorem var_node_subtype (pk : Option String) (name : String) (isTest : Bool)
    (ti tc : Option TypeInfo) (o : Obj) (n : Node) :
    (objNodes isTest (Obj.varO pk name ti)).length = 1 ∧
    (∀ m, m ∈ objNodes isTest (Obj.varO pk name ti) →
      m.Typ = varBasic ∧ m.Typ ≠ varField) ∧
    (objNodes isTest (Obj.constO pk name tc)).length = 1 ∧
    (n ∈ objNodes isTest o → n.Typ = varField →
      ∃ pk2 nm info f, o = Obj.typeNameO pk2 nm info ∧ info.shape = Shape.structS ∧
        f ∈ info.fields ∧ n.Kind = kindVar ∧
        n.Id = "(" ++ idOf pk2 nm none ++ ")." ++ f.1 ∧
        n.Parent = idOf pk2 nm none) := by
  refine ⟨by simp [objNodes], ?_, by simp [objNodes], ?_⟩
  · intro m hm
    simp [objNodes] at hm
    subst hm
    exact ⟨rfl, fun h => (by decide : ¬ (varBasic = varField)) h⟩
  · intro hn hT
    cases o with
    | funcO pk3 nm rv =>
      simp [objNodes] at hn
      subst hn
      exact absurd hT (by decide : ¬ (funcBasic = varField))
    | constO pk3 nm ti3 =>
      simp [objNodes] at hn
      subst hn
      exact absurd hT (by decide : ¬ (("" : String) = varField))
    | varO pk3 nm ti3 =>
      simp [objNodes] at hn
      subst hn
      exact absurd hT (by decide : ¬ (varBasic = varField))
    | typeNameO pk3 nm info =>
      obtain ⟨sh, flds, ims, embs, ms, nstr, isn⟩ := info
      cases sh with
      | structS =>
        cases isn with
        | false =>
          simp [objNodes] at hn
          rcases hn with rfl | ⟨a, ⟨b, hf⟩, rfl⟩
          · exact absurd hT (by decide : ¬ (typeStruct = varField))
          · exact ⟨pk3, nm, _, (a, b), rfl, rfl, hf, rfl, rfl, rfl⟩
        | true =>
          simp [objNodes] at hn
          rcases hn with rfl | ⟨a, ⟨b, hf⟩, rfl⟩ | ⟨m, hm, rfl⟩
          · exact absurd hT (by decide : ¬ (typeStruct = varField))
          · exact ⟨pk3, nm, _, (a, b), rfl, rfl, hf, rfl, rfl, rfl⟩
          · exact absurd hT (by decide : ¬ (funcMethod = varField))
      | interfaceS =>
        cases isn with
        | false =>
          simp [objNodes] at hn
          rcases hn with rfl | ⟨m, hm, rfl⟩
          · exact absurd hT (by decide : ¬ (typeInterface = varField))
          · exact absurd hT (by decide : ¬ (funcMethod = varField))
        | true =>
          simp [objNodes] at hn
          rcases hn with rfl | ⟨m, hm, rfl⟩ | ⟨m, hm, rfl⟩
          · exact absurd hT (by decide : ¬ (typeInterface = varField))
          · exact absurd hT (by decide : ¬ (funcMethod = varField))
          · exact absurd hT (by decide : ¬ (funcMethod = varField))
      | basicS =>
        cases isn with
        | false =>
          simp [objNodes] at hn
          subst hn
          exact absurd hT (by decide : ¬ (typeBasic = varField))
        | true =>
          simp [objNodes] at hn
          rcases hn with rfl | ⟨m, hm, rfl⟩
          · exact absurd hT (by decide : ¬ (typeBasic = varField))
          · exact absurd hT (by decide : ¬ (funcMethod = varField))
      | sigS =>
        cases isn with
        | false =>
          simp [objNodes] at hn
          subst hn
          exact absurd hT (by decide : ¬ (typeFunc = varField))
        | true =>
          simp [objNodes] at hn
          rcases hn with rfl | ⟨m, hm, rfl⟩
          · exact absurd hT (by decide : ¬ (typeFunc = varField))
          · exact absurd hT (by decide : ¬ (funcMethod = varField))
      | otherS =>
        cases isn with
        | false =>
          simp [objNodes] at hn
          subst hn
          exact absurd hT (by decide : ¬ (typeName = varField))
        | true =>
          simp [objNodes] at hn
          rcases hn with rfl | ⟨m, hm, rfl⟩
          · exact absurd hT (by decide : ¬ (typeName = varField))
          · exact absurd hT (by decide : ¬ (funcMethod = varField))

/-- Witness for C9 at concrete inputs. -/
theorem var_node_subtype_witness :
    ((mkNode kindVar varBasic "p" "p.x" "x" "" false).Typ = varBasic ∧
     (mkNode kindVar varBasic "p" "p.x" "x" "" false).Typ ≠ varField) ∧
    (∃ pk2 nm info f,
      Obj.typeNameO (some "p") "T"
          ⟨Shape.structS, [("F", Ty.prim "int")], [], [], [], "p.T", true⟩ =
        Obj.typeNameO pk2 nm info ∧
      info.shape = Shape.structS ∧ f ∈ info.fields ∧
      (mkNode kindVar varField "p" "(p.T).F" "T.F" "p.T" false).Kind = kindVar ∧
      (mkNode kindVar varField "p" "(p.T).F" "T.F" "p.T" false).Id =
        "(" ++ idOf pk2 nm none ++ ")." ++ f.1 ∧
      (mkNode kindVar varField "p" "(p.T).F" "T.F" "p.T" false).Parent =
        idOf pk2 nm none) :=
  ⟨(var_node_subtype (some "p") "x" false none none (Obj.funcO none "z" none)
      (mkNode kindVar varBasic "p" "p.x" "x" "" false)).2.1
      (mkNode kindVar varBasic "p" "p.x" "x" "" false) (by decide),
   (var_node_subtype (some "p") "x" false none none
      (Obj.typeNameO (some "p") "T"
        ⟨Shape.structS, [("F", Ty.prim "int")], [], [], [], "p.T", true⟩)
      (mkNode kindVar varField "p" "(p.T).F" "T.F" "p.T" false)).2.2.2
      (by decide) (by decide)⟩

/-! ## Node classification in the text-parsing viewer (C10) -/

/-- C10: `classifyNode` decides by name shape before kind: a `Test`-prefixed
name is grouped `test` whatever its declared kind; otherwise a dotted name
is grouped `method`; only otherwise does the declared kind become the
group. -/
theorem classifyNode_order (name typ : String) :
    (strStartsWith name "Test" = true → classifyNode name typ = "test") ∧
    (strStartsWith name "Test" = false → strContainsDot name = true →
      classifyNode name typ = "method") ∧
    (strStartsWith name "Test" = false → strContainsDot name = false →
      classifyNode name typ = typ) := by
  refine ⟨fun h => ?_, fun h1 h2 => ?_, fun h1 h2 => ?_⟩
  · simp [classifyNode, h]
  · simp [classifyNode, h1, h2]
  · simp [classifyNode, h1, h2]

/-- Witness for C10: a test-named type, a dotted const, a plain var. -/
theorem classifyNode_order_witness :
    classifyNode "TestFoo" "type" = "test" ∧
    classifyNode "a.b" "const" = "method" ∧
    classifyNode "foo" "var" = "var" :=
  ⟨(classifyNode_order "TestFoo" "type").1 (by decide),
   (classifyNode_order "a.b" "const").2.1 (by decide) (by decide),
   (classifyNode_order "foo" "var").2.2 (by decide) (by decide)⟩

/-! ## Selection units in the viewer (C6) -/

/-- Membership in the method-gathering fold of `handleSelectionLogic`. -/
theorem mem_foldl_unitStep (ns : List VizNode) (tid : String) (acc : List String)
    (x : String) :
    x ∈ ns.foldl (unitStep tid) acc ↔
      x ∈ acc ∨ ∃ n, n ∈ ns ∧ n.Typ = "method" ∧
        strStartsWith n.ID (tid ++ ".") = true ∧ x = n.ID := by
  induction ns generalizing acc with
  | nil => simp
  | cons m ms ih =>
    rw [List.foldl_cons, ih]
    unfold unitStep
    split_ifs with hc
    · obtain ⟨h1, h2, h3⟩ := hc
      constructor
      · rintro (hx | ⟨n, hn, hT, hS, rfl⟩)
        · rcases List.mem_append.mp hx with hx | hx
          · exact Or.inl hx
          · rcases List.mem_singleton.mp hx with rfl
            exact Or.inr ⟨m, List.mem_cons_self _ _, h1, h2, rfl⟩
        · exact Or.inr ⟨n, List.mem_cons_of_mem _ hn, hT, hS, rfl⟩
      · rintro (hx | ⟨n, hn, hT, hS, rfl⟩)
        · exact Or.inl (List.mem_append.mpr (Or.inl hx))
        · rcases List.mem_cons.mp hn with rfl | hn
          · exact Or.inl (List.mem_append.mpr (Or.inr (List.mem_singleton.mpr rfl)))
          · exact Or.inr ⟨n, hn, hT, hS, rfl⟩
    · constructor
      · rintro (hx | ⟨n, hn, hT, hS, rfl⟩)
        · exact Or.inl hx
        · exact Or.inr ⟨n, List.mem_cons_of_mem _ hn, hT, hS, rfl⟩
      · rintro (hx | ⟨n, hn, hT, hS, rfl⟩)
        · exact Or.inl hx
        · rcases List.mem_cons.mp hn with rfl | hn
          · have hmem : n.ID ∈ acc := by
              by_contra hnin
              exact hc ⟨hT, hS, hnin⟩
            exact Or.inl hmem
          · exact Or.inr ⟨n, hn, hT, hS, rfl⟩

/-- Counterexample for C6: in the viewer, selecting the type node `"A"`
pulls in the method node `"A.B.C"`, although `"A.B.C"` has no parent type
under the viewer's own parent notion (its id does not split into exactly
two dot-separated parts, so `parseDependencies` attaches it to no type). -/
theorem type_selection_parent_counterexample :
    "A.B.C" ∈ selectionUnit
      ([⟨"A", "type", "type"⟩, ⟨"A.B.C", "method", "method"⟩] : List VizNode) "A" ∧
    decide (∃ n ∈ ([⟨"A", "type", "type"⟩,
        ⟨"A.B.C", "method", "method"⟩] : List VizNode),
      n.Typ = "method" ∧ methodParent n.ID = some "A" ∧ n.ID = "A.B.C") = false := by
  decide

/-- C6 amended: when the clicked node is found and is a `type` node, the
computed selection unit consists of the clicked id together with exactly
those method nodes whose id starts with the clicked id followed by a dot
(an id-prefix rule, not a parent-id rule); when the clicked node is not a
`type` node, or is not found, the unit is the clicked id alone. -/
theorem type_selection_unit (ns : List VizNode) (tid : String) (tn : VizNode)
    (x : String) :
    (ns.find? (fun n => n.ID == tid) = some tn →
      (tn.Typ = "type" →
        (x ∈ selectionUnit ns tid ↔
          x = tid ∨ ∃ n, n ∈ ns ∧ n.Typ = "method" ∧
            strStartsWith n.ID (tid ++ ".") = true ∧ x = n.ID)) ∧
      (tn.Typ ≠ "type" → selectionUnit ns tid = [tid])) ∧
    (ns.find? (fun n => n.ID == tid) = none → selectionUnit ns tid = [tid]) := by
  constructor
  · intro hf
    constructor
    · intro ht
      simp only [selectionUnit, hf]
      rw [if_pos ht, mem_foldl_unitStep]
      simp only [List.mem_singleton]
    · intro ht
      simp only [selectionUnit, hf]
      rw [if_neg ht]
  · intro hf
    simp only [selectionUnit, hf]

/-- Witness for C6 (amended): a type with one genuine method. -/
theorem type_selection_unit_witness :
    "A.M" ∈ selectionUnit
        ([⟨"A", "type", "type"⟩, ⟨"A.M", "method", "method"⟩] : List VizNode) "A" ↔
      "A.M" = "A" ∨ ∃ n, n ∈ ([⟨"A", "type", "type"⟩,
          ⟨"A.M", "method", "method"⟩] : List VizNode) ∧ n.Typ = "method" ∧
        strStartsWith n.ID ("A" ++ ".") = true ∧ "A.M" = n.ID :=
  ((type_selection_unit
      ([⟨"A", "type", "type"⟩, ⟨"A.M", "method", "method"⟩] : List VizNode)
      "A" ⟨"A", "type", "type"⟩ "A.M").1 (by decide)).1 (by decide)

/-! ## Partition of focus edges (C7) -/

/-- C7: for a non-empty selection, the outbound-external, inbound-external
and internal edge lists of `applyFocus` are pairwise disjoint and together
cover exactly the edges with at least one endpoint in the selection. -/
theorem focus_edge_partition (sel : String → Bool) (links : List VizLink)
    (l : VizLink) (hne : ∃ x, sel x = true) :
    (¬ (l ∈ extOut sel links ∧ l ∈ extIn sel links)) ∧
    (¬ (l ∈ extOut sel links ∧ l ∈ internalLinks sel links)) ∧
    (¬ (l ∈ extIn sel links ∧ l ∈ internalLinks sel links)) ∧
    ((l ∈ extOut sel links ∨ l ∈ extIn sel links ∨ l ∈ internalLinks sel links) ↔
      l ∈ links ∧ (sel l.Source = true ∨ sel l.Target = true)) := by
  clear hne
  simp only [extOut, extIn, internalLinks, List.mem_filter]
  cases hs : sel l.Source <;> cases ht : sel l.Target <;> simp [hs, ht]

/-- Witness for C7 at a concrete one-edge graph and singleton selection. -/
theorem focus_edge_partition_witness :
    (VizLink.mk "a" "b" ∈ extOut (fun s => s == "a") [VizLink.mk "a" "b"] ∨
     VizLink.mk "a" "b" ∈ extIn (fun s => s == "a") [VizLink.mk "a" "b"] ∨
     VizLink.mk "a" "b" ∈ internalLinks (fun s => s == "a") [VizLink.mk "a" "b"]) ↔
      VizLink.mk "a" "b" ∈ [VizLink.mk "a" "b"] ∧
        ((fun s => s == "a") (VizLink.mk "a" "b").Source = true ∨
         (fun s => s == "a") (VizLink.mk "a" "b").Target = true) :=
  (focus_edge_partition (fun s => s == "a") [VizLink.mk "a" "b"] (VizLink.mk "a" "b")
    ⟨"a", by decide⟩).2.2.2

/-! ## Idempotent additive toggling (C8) -/

/-- Toggling a list of ids flips the selection at `y` once per occurrence
of `y`. -/
theorem toggleAll_apply (u : List String) (sel : String → Bool) (y : String) :
    toggleAll sel u y = if u.count y % 2 = 1 then !(sel y) else sel y := by
  induction u generalizing sel with
  | nil => simp [toggleAll]
  | cons a u ih =>
    show toggleAll (toggleOne sel a) u y = _
    rw [ih]
    unfold toggleOne
    by_cases hya : y = a
    · subst hya
      rcases Nat.mod_two_eq_zero_or_one (u.count y) with h | h
      · have h2 : (u.count y + 1) % 2 = 1 := by omega
        simp [List.count_cons_self, h, h2]
      · have h2 : (u.count y + 1) % 2 = 0 := by omega
        simp [List.count_cons_self, h, h2]
    · simp [List.count_cons, hya]

/-- C8: performing the additive (shift-held) selection action twice in a
row on the same target restores the selection set: the unit computed from
the static node list is the same both times, and toggling it twice is the
identity on the selection's characteristic function. -/
theorem additive_toggle_involutive (ns : List VizNode) (sel : String → Bool)
    (tid y : String) :
    handleSelection ns (handleSelection ns sel tid true) tid true y = sel y := by
  show toggleAll (toggleAll sel (selectionUnit ns tid)) (selectionUnit ns tid) y = sel y
  rw [toggleAll_apply, toggleAll_apply]
  rcases Nat.mod_two_eq_zero_or_one ((selectionUnit ns tid).count y) with h | h <;>
    simp [h]
